import Mathlib

/-!
Shallow embedding of the file-backed key-value store in `src/macro_state.rs`.

Strings are modelled as lists of characters. The filesystem is modelled as a
map from paths to optional file contents, together with per-path fault flags
that let the create / append / remove primitives fail the way the underlying
OS calls can. Reads of an existing file succeed with its exact contents;
reading a missing file yields a NotFound error. Every stateful operation
returns the new filesystem paired with the result the Rust function returns,
and leaves the filesystem unchanged when it errors.
-/

/-- Strings (Rust `String` / `&str`) modelled as lists of characters. -/
abbrev Str := List Char

/-- Error kinds of the storage backend: `notFound` for a missing file,
`ioFault` for any other I/O failure. -/
inductive IoErr where
  | notFound
  | ioFault
deriving DecidableEq

/-- The filesystem: file contents per path, plus per-path fault flags for the
three fallible mutating primitives (`File::create`, append-mode open, and
`fs::remove_file`). -/
structure FS where
  files : Str → Option Str
  createFault : Str → Bool
  appendFault : Str → Bool
  removeFault : Str → Bool

/-- Embedding of `value.replace("\n", "\\n")` from `proc_append_state`:
every literal newline is replaced by the two characters backslash, `n`. -/
def escapeNl : Str → Str
  | [] => []
  | c :: rest => if c = '\n' then '\\' :: 'n' :: escapeNl rest else c :: escapeNl rest

/-- Embedding of `item.replace("\\n", "\n")` from `proc_read_state_vec`:
each leftmost, non-overlapping occurrence of backslash-`n` becomes a newline. -/
def unescapeNl : Str → Str
  | [] => []
  | [c] => [c]
  | c1 :: c2 :: rest =>
    if c1 = '\\' ∧ c2 = 'n' then '\n' :: unescapeNl rest
    else c1 :: unescapeNl (c2 :: rest)

/-- Whether a string contains the literal two-character sequence backslash-`n`. -/
def hasEscSeq : Str → Bool
  | [] => false
  | [_] => false
  | c1 :: c2 :: rest => (c1 = '\\' && c2 = 'n') || hasEscSeq (c2 :: rest)

/-- Decimal rendering of a natural number, as Rust `format!("{}", n)` prints
the `u128` epoch value. -/
def decimalStr (n : Nat) : Str :=
  if n = 0 then ['0'] else ((Nat.digits 10 n).map Nat.digitChar).reverse

/-- The fixed file-name tag used by `state_file_path`. -/
def stateTag : Str := "macro_state_".data

/-- Embedding of `state_file_path`: the storage location for a key is
`<root>/macro_state_<key>_<epoch>`, where `root` is the `MACRO_STATE_DIR`
storage root and `epoch` is the process-wide `COMPILE_TIME` value. -/
def state_file_path (root : Str) (epoch : Nat) (key : Str) : Str :=
  root ++ '/' :: stateTag ++ key ++ '_' :: decimalStr epoch

/-- Embedding of `fs::read_to_string`: the contents of an existing file,
or a NotFound error for a missing one. -/
def readToString (fs : FS) (p : Str) : Except IoErr Str :=
  match fs.files p with
  | some v => .ok v
  | none => .error .notFound

/-- Embedding of `fs::remove_file`: fails on a remove fault, deletes an
existing file, errors with NotFound on a missing one. -/
def removeFile (fs : FS) (p : Str) : FS × Except IoErr Unit :=
  if fs.removeFault p then (fs, .error .ioFault)
  else
    match fs.files p with
    | some _ => ({ fs with files := fun q => if q = p then none else fs.files q }, .ok ())
    | none => (fs, .error .notFound)

/-- Embedding of `proc_write_state`: `File::create` truncates or creates the
state file and the value is written verbatim; a create fault is returned as
the I/O error. -/
def proc_write_state (root : Str) (epoch : Nat) (fs : FS) (key value : Str) :
    FS × Except IoErr Unit :=
  let p := state_file_path root epoch key
  if fs.createFault p then (fs, .error .ioFault)
  else ({ fs with files := fun q => if q = p then some value else fs.files q }, .ok ())

/-- Embedding of `proc_read_state`: read the state file for the key. -/
def proc_read_state (root : Str) (epoch : Nat) (fs : FS) (key : Str) : Except IoErr Str :=
  readToString fs (state_file_path root epoch key)

/-- Embedding of `proc_has_state`: read and discard, any error becomes `false`. -/
def proc_has_state (root : Str) (epoch : Nat) (fs : FS) (key : Str) : Bool :=
  match proc_read_state root epoch fs key with
  | .ok _ => true
  | .error _ => false

/-- Embedding of `proc_clear_state`: if the key has state, remove the file
(propagating the result of `fs::remove_file`), otherwise return `Ok`. -/
def proc_clear_state (root : Str) (epoch : Nat) (fs : FS) (key : Str) :
    FS × Except IoErr Unit :=
  if proc_has_state root epoch fs key then removeFile fs (state_file_path root epoch key)
  else (fs, .ok ())

/-- Embedding of `proc_init_state`: return the existing value if the read
succeeds; otherwise write the default and return it, propagating write errors. -/
def proc_init_state (root : Str) (epoch : Nat) (fs : FS) (key default_value : Str) :
    FS × Except IoErr Str :=
  match proc_read_state root epoch fs key with
  | .ok existing => (fs, .ok existing)
  | .error _ =>
    match proc_write_state root epoch fs key default_value with
    | (fs1, .ok _) => (fs1, .ok default_value)
    | (fs1, .error e) => (fs1, .error e)

/-- Embedding of `proc_append_state`: escape newlines in the value, add a
trailing newline, and append to the state file opened in append/create mode
(an absent file behaves as empty); an append fault is the I/O error. -/
def proc_append_state (root : Str) (epoch : Nat) (fs : FS) (key value : Str) :
    FS × Except IoErr Unit :=
  let payload := escapeNl value ++ ['\n']
  let p := state_file_path root epoch key
  if fs.appendFault p then (fs, .error .ioFault)
  else
    ({ fs with
        files := fun q => if q = p then some ((fs.files p).getD [] ++ payload) else fs.files q },
      .ok ())

/-- The decoding half of `proc_read_state_vec`: strip one trailing newline if
the last character is a newline, split on newlines, and un-escape each item. -/
def decodeList (value0 : Str) : List Str :=
  let value := if value0.getLast? = some '\n' then value0.dropLast else value0
  (value.splitOn '\n').map unescapeNl

/-- Embedding of `proc_read_state_vec`: decode the state file's contents as a
list; any read error yields the empty list. -/
def proc_read_state_vec (root : Str) (epoch : Nat) (fs : FS) (key : Str) : List Str :=
  match readToString fs (state_file_path root epoch key) with
  | .ok value => decodeList value
  | .error _ => []

/-- The bytes one `proc_append_state` call adds to the state file. -/
def encodeItem (s : Str) : Str := escapeNl s ++ ['\n']

/-- The state-file contents produced by appending each item in order to an
initially absent file. -/
def encodeItems (items : List Str) : Str := (items.map encodeItem).flatten

/-- Sequentially apply `proc_append_state` for each item, threading the
filesystem. -/
def appendStates (root : Str) (epoch : Nat) (fs : FS) (key : Str) (items : List Str) : FS :=
  items.foldl (fun s it => (proc_append_state root epoch s key it).1) fs

/-- A filesystem with no files and no faults. -/
def emptyFS : FS :=
  { files := fun _ => none
    createFault := fun _ => false
    appendFault := fun _ => false
    removeFault := fun _ => false }

/-- A filesystem holding one file, with no faults. -/
def singleFS (p v : Str) : FS :=
  { files := fun q => if q = p then some v else none
    createFault := fun _ => false
    appendFault := fun _ => false
    removeFault := fun _ => false }

/-- A filesystem holding one file whose removal faults: the file exists but
`fs::remove_file` on it fails with an I/O error. -/
def removeBrokenFS (p v : Str) : FS :=
  { files := fun q => if q = p then some v else none
    createFault := fun _ => false
    appendFault := fun _ => false
    removeFault := fun q => decide (q = p) }

/-! ## Lemmas about the newline escaping and the list encoding -/

theorem escapeNl_cons_newline (rest : Str) :
    escapeNl ('\n' :: rest) = '\\' :: 'n' :: escapeNl rest := rfl

theorem escapeNl_cons_other (c : Char) (rest : Str) (hc : c ≠ '\n') :
    escapeNl (c :: rest) = c :: escapeNl rest := by
  simp only [escapeNl, if_neg hc]

theorem escapeNl_not_newline (s : Str) : '\n' ∉ escapeNl s := by
  induction s with
  | nil => simp [escapeNl]
  | cons c rest ih =>
    by_cases hc : c = '\n'
    · subst hc
      rw [escapeNl_cons_newline]
      intro hmem
      rcases List.mem_cons.mp hmem with h | hmem
      · exact absurd h (by decide)
      rcases List.mem_cons.mp hmem with h | hmem
      · exact absurd h (by decide)
      · exact ih hmem
    · rw [escapeNl_cons_other c rest hc]
      intro hmem
      rcases List.mem_cons.mp hmem with h | hmem
      · exact hc h.symm
      · exact ih hmem

theorem hasEscSeq_cons (c : Char) (rest : Str) (h : hasEscSeq (c :: rest) = false) :
    hasEscSeq rest = false ∧ ¬(c = '\\' ∧ rest.head? = some 'n') := by
  cases rest with
  | nil => exact ⟨rfl, by simp⟩
  | cons r rs =>
    simp only [hasEscSeq, Bool.or_eq_false_iff, Bool.and_eq_false_iff,
      decide_eq_false_iff_not] at h
    refine ⟨h.2, ?_⟩
    rintro ⟨hc, hh⟩
    simp only [List.head?_cons, Option.some.injEq] at hh
    rcases h.1 with h1 | h1
    · exact h1 hc
    · exact h1 hh

theorem escapeNl_head? (s : Str) (h : s.head? ≠ some 'n') : (escapeNl s).head? ≠ some 'n' := by
  cases s with
  | nil => simp [escapeNl]
  | cons c rest =>
    by_cases hc : c = '\n'
    · subst hc
      rw [escapeNl_cons_newline]
      simp only [List.head?_cons]
      decide
    · simp only [List.head?_cons] at h
      rw [escapeNl_cons_other c rest hc]
      simp only [List.head?_cons]
      exact h

theorem unescapeNl_cons_of (c : Char) (xs : Str) (h : ¬(c = '\\' ∧ xs.head? = some 'n')) :
    unescapeNl (c :: xs) = c :: unescapeNl xs := by
  cases xs with
  | nil => rfl
  | cons x xt =>
    have hcond : ¬(c = '\\' ∧ x = 'n') := by
      rintro ⟨h1, h2⟩
      exact h ⟨h1, by simp [h2]⟩
    simp only [unescapeNl, if_neg hcond]

theorem unescapeNl_escSeq (xs : Str) : unescapeNl ('\\' :: 'n' :: xs) = '\n' :: unescapeNl xs := by
  simp [unescapeNl]

theorem unescapeNl_escapeNl (s : Str) (h : hasEscSeq s = false) :
    unescapeNl (escapeNl s) = s := by
  induction s with
  | nil => rfl
  | cons c rest ih =>
    obtain ⟨h1, h2⟩ := hasEscSeq_cons c rest h
    by_cases hc : c = '\n'
    · subst hc
      rw [escapeNl_cons_newline, unescapeNl_escSeq, ih h1]
    · rw [escapeNl_cons_other c rest hc]
      rw [unescapeNl_cons_of c (escapeNl rest) ?hne, ih h1]
      case hne =>
        rintro ⟨hcb, hh⟩
        have hr : rest.head? ≠ some 'n' := fun hx => h2 ⟨hcb, hx⟩
        exact escapeNl_head? rest hr hh

theorem splitOn_eq_single (xs : Str) (h : '\n' ∉ xs) : xs.splitOn '\n' = [xs] := by
  simp only [List.splitOn]
  exact List.splitOnP_eq_single _ _ fun x hx => by
    simp only [beq_iff_eq]
    rintro rfl
    exact h hx

theorem encodeItems_cons (i : Str) (is : List Str) :
    encodeItems (i :: is) = encodeItem i ++ encodeItems is := by
  simp [encodeItems]

theorem encodeItems_split (i : Str) (is : List Str) :
    ∃ Q, encodeItems (i :: is) = Q ++ ['\n'] ∧ Q.splitOn '\n' = (i :: is).map escapeNl := by
  induction is generalizing i with
  | nil =>
    refine ⟨escapeNl i, ?_, ?_⟩
    · simp [encodeItems, encodeItem]
    · simp [splitOn_eq_single _ (escapeNl_not_newline i)]
  | cons j js ih =>
    obtain ⟨Q, hQ1, hQ2⟩ := ih j
    refine ⟨escapeNl i ++ '\n' :: Q, ?_, ?_⟩
    · rw [encodeItems_cons, hQ1, encodeItem]
      simp [List.append_assoc]
    · have hfirst := List.splitOnP_first (· == '\n') (escapeNl i)
        (fun x hx => by
          simp only [beq_iff_eq]
          rintro rfl
          exact escapeNl_not_newline i hx)
        '\n' (beq_self_eq_true _) Q
      simp only [List.splitOn] at hQ2 ⊢
      rw [hfirst, hQ2]
      simp

theorem decodeList_encodeItems (items : List Str) (hne : items ≠ []) :
    decodeList (encodeItems items) = items.map fun s => unescapeNl (escapeNl s) := by
  match items with
  | i :: is =>
    obtain ⟨Q, hQ1, hQ2⟩ := encodeItems_split i is
    rw [hQ1]
    have hcond : (Q ++ ['\n']).getLast? = some '\n' := List.getLast?_concat Q
    simp only [decodeList]
    rw [if_pos hcond, List.dropLast_concat, hQ2, List.map_map]
    rfl

/-! ## Lemmas about appending and the state-file fold -/

theorem proc_append_state_fault_eq (root : Str) (epoch : Nat) (fs : FS) (key value : Str) :
    ((proc_append_state root epoch fs key value).1).appendFault = fs.appendFault := by
  cases hb : fs.appendFault (state_file_path root epoch key) <;>
    simp [proc_append_state, hb]

theorem proc_append_state_files (root : Str) (epoch : Nat) (fs : FS) (key value : Str)
    (h : fs.appendFault (state_file_path root epoch key) = false) :
    ((proc_append_state root epoch fs key value).1).files (state_file_path root epoch key)
      = some ((fs.files (state_file_path root epoch key)).getD [] ++ encodeItem value) := by
  simp [proc_append_state, h, encodeItem]

theorem appendStates_cons (root : Str) (epoch : Nat) (fs : FS) (key i : Str) (is : List Str) :
    appendStates root epoch fs key (i :: is)
      = appendStates root epoch (proc_append_state root epoch fs key i).1 key is := by
  simp [appendStates]

theorem appendStates_files_some (root : Str) (epoch : Nat) (key : Str) :
    ∀ (items : List Str) (fs : FS) (c : Str),
      fs.appendFault (state_file_path root epoch key) = false →
      fs.files (state_file_path root epoch key) = some c →
      (appendStates root epoch fs key items).files (state_file_path root epoch key)
        = some (c ++ encodeItems items) := by
  intro items
  induction items with
  | nil =>
    intro fs c hf hc
    simp [appendStates, encodeItems, hc]
  | cons i is ih =>
    intro fs c hf hc
    rw [appendStates_cons]
    have hf1 : ((proc_append_state root epoch fs key i).1).appendFault
        (state_file_path root epoch key) = false := by
      rw [proc_append_state_fault_eq]
      exact hf
    have hc1 : ((proc_append_state root epoch fs key i).1).files
        (state_file_path root epoch key) = some (c ++ encodeItem i) := by
      rw [proc_append_state_files root epoch fs key i hf, hc]
      rfl
    rw [ih _ _ hf1 hc1, encodeItems_cons]
    simp [List.append_assoc]

theorem appendStates_files_none (root : Str) (epoch : Nat) (key i : Str) (is : List Str)
    (fs : FS) (hf : fs.appendFault (state_file_path root epoch key) = false)
    (hn : fs.files (state_file_path root epoch key) = none) :
    (appendStates root epoch fs key (i :: is)).files (state_file_path root epoch key)
      = some (encodeItems (i :: is)) := by
  rw [appendStates_cons]
  have hf1 : ((proc_append_state root epoch fs key i).1).appendFault
      (state_file_path root epoch key) = false := by
    rw [proc_append_state_fault_eq]
    exact hf
  have hc1 : ((proc_append_state root epoch fs key i).1).files
      (state_file_path root epoch key) = some (encodeItem i) := by
    rw [proc_append_state_files root epoch fs key i hf, hn]
    rfl
  rw [appendStates_files_some root epoch key is _ _ hf1 hc1, encodeItems_cons]

/-! ## Lemmas about the decimal epoch rendering and the state-file path -/

theorem digitChar_inj_lt : ∀ a < 10, ∀ b < 10, Nat.digitChar a = Nat.digitChar b → a = b := by
  decide

theorem map_digitChar_inj : ∀ l1 l2 : List Nat, (∀ d ∈ l1, d < 10) → (∀ d ∈ l2, d < 10) →
    l1.map Nat.digitChar = l2.map Nat.digitChar → l1 = l2 := by
  intro l1
  induction l1 with
  | nil =>
    intro l2 _ _ h
    cases l2 with
    | nil => rfl
    | cons b bs => simp at h
  | cons a as ih =>
    intro l2 h1 h2 h
    cases l2 with
    | nil => simp at h
    | cons b bs =>
      simp only [List.map_cons, List.cons.injEq] at h
      have ha : a = b :=
        digitChar_inj_lt a (h1 a (List.mem_cons_self a as)) b (h2 b (List.mem_cons_self b bs)) h.1
      have hrest :=
        ih bs (fun d hd => h1 d (List.mem_cons_of_mem a hd))
          (fun d hd => h2 d (List.mem_cons_of_mem b hd)) h.2
      rw [ha, hrest]

theorem decimalStr_ne_singleton_zero (n : Nat) (hn : n ≠ 0) : decimalStr n ≠ ['0'] := by
  intro h
  rw [decimalStr, if_neg hn] at h
  have h' : (Nat.digits 10 n).map Nat.digitChar = ['0'] := by
    have := congrArg List.reverse h
    simpa using this
  have hd : Nat.digits 10 n = [0] := by
    apply map_digitChar_inj _ [0] (fun d hd => Nat.digits_lt_base (by norm_num) hd) (by simp)
    rw [h']
    decide
  have := congrArg (Nat.ofDigits 10) hd
  rw [Nat.ofDigits_digits] at this
  simp [Nat.ofDigits] at this
  exact hn this

theorem decimalStr_injective : ∀ m n : Nat, decimalStr m = decimalStr n → m = n := by
  intro m n h
  by_cases hm : m = 0 <;> by_cases hn : n = 0
  · rw [hm, hn]
  · subst hm
    rw [show decimalStr 0 = ['0'] from rfl] at h
    exact absurd h.symm (decimalStr_ne_singleton_zero n hn)
  · subst hn
    rw [show decimalStr 0 = ['0'] from rfl] at h
    exact absurd h (decimalStr_ne_singleton_zero m hm)
  · rw [decimalStr, if_neg hm, decimalStr, if_neg hn] at h
    have h2 := List.reverse_injective h
    have h3 := map_digitChar_inj _ _ (fun d hd => Nat.digits_lt_base (by norm_num) hd)
      (fun d hd => Nat.digits_lt_base (by norm_num) hd) h2
    exact Nat.digits_inj_iff.mp h3

theorem state_file_path_key_inj (root : Str) (epoch : Nat) (k k' : Str) (h : k ≠ k') :
    state_file_path root epoch k ≠ state_file_path root epoch k' := by
  intro heq
  apply h
  simp only [state_file_path] at heq
  have h1 := List.append_cancel_right heq
  exact List.append_cancel_left h1

/-! ## Claim theorems -/

/-- C1: if `proc_write_state(k, v)` succeeds then a subsequent
`proc_read_state(k)` in the same process returns exactly `v`, byte for byte,
regardless of any value previously stored under `k` (the write overwrites
unconditionally, since the filesystem `fs` is arbitrary). -/
theorem write_then_read (root : Str) (epoch : Nat) (fs : FS) (key value : Str)
    (h : (proc_write_state root epoch fs key value).2 = .ok ()) :
    proc_read_state root epoch (proc_write_state root epoch fs key value).1 key
      = .ok value := by
  by_cases hc : fs.createFault (state_file_path root epoch key) = true
  · simp [proc_write_state, hc] at h
  · simp only [Bool.not_eq_true] at hc
    simp [proc_write_state, hc, proc_read_state, readToString]

/-- Witness for C1 at a concrete input: the value holds the literal escape
sequence and an embedded newline. -/
theorem write_then_read_witness :
    (proc_write_state [] 0 emptyFS ['k'] ['\\', 'n', '\n']).2 = .ok () ∧
    proc_read_state [] 0 (proc_write_state [] 0 emptyFS ['k'] ['\\', 'n', '\n']).1 ['k']
      = .ok ['\\', 'n', '\n'] :=
  ⟨rfl, write_then_read [] 0 emptyFS ['k'] ['\\', 'n', '\n'] rfl⟩

/-- C2 (amended): decoding inverts encoding for every item string that does
not already contain the literal two-character sequence backslash-`n`:
appending such an item to a key with no prior state and decoding via
`proc_read_state_vec` recovers it unchanged. -/
theorem append_single_roundtrip (root : Str) (epoch : Nat) (fs : FS) (key s : Str)
    (hfresh : fs.files (state_file_path root epoch key) = none)
    (hfault : fs.appendFault (state_file_path root epoch key) = false)
    (hs : hasEscSeq s = false) :
    proc_read_state_vec root epoch (proc_append_state root epoch fs key s).1 key = [s] := by
  have hfile : ((proc_append_state root epoch fs key s).1).files
      (state_file_path root epoch key) = some (encodeItems [s]) := by
    rw [proc_append_state_files root epoch fs key s hfault, hfresh]
    simp [encodeItems]
  simp only [proc_read_state_vec, readToString, hfile]
  rw [decodeList_encodeItems [s] (List.cons_ne_nil s [])]
  simp [unescapeNl_escapeNl s hs]

/-- Witness for C2 at a concrete input: the empty item round-trips. -/
theorem append_single_roundtrip_witness :
    emptyFS.files (state_file_path [] 0 ['k']) = none ∧
    emptyFS.appendFault (state_file_path [] 0 ['k']) = false ∧
    hasEscSeq [] = false ∧
    proc_read_state_vec [] 0 (proc_append_state [] 0 emptyFS ['k'] []).1 ['k'] = [[]] :=
  ⟨rfl, rfl, rfl, append_single_roundtrip [] 0 emptyFS ['k'] [] rfl rfl rfl⟩

/-- C2 counterexample: the item consisting of the literal two characters
backslash-`n` does not round-trip — it decodes to a newline. -/
theorem append_escape_seq_counterexample :
    proc_read_state_vec [] 0 (proc_append_state [] 0 emptyFS ['k'] ['\\', 'n']).1 ['k']
        = [['\n']] ∧
    [['\n']] ≠ [(['\\', 'n'] : Str)] := ⟨rfl, by decide⟩

/-- C3 (amended): `proc_clear_state(k)` returns `Ok` when no state exists for
`k` (absence is not an error), and whenever it returns `Ok`,
`proc_has_state(k)` is false afterwards; removal errors, however, are
propagated to the caller, not swallowed. -/
theorem clear_state_contract (root : Str) (epoch : Nat) (fs : FS) (key : Str) :
    (fs.files (state_file_path root epoch key) = none →
      proc_clear_state root epoch fs key = (fs, .ok ())) ∧
    ((proc_clear_state root epoch fs key).2 = .ok () →
      proc_has_state root epoch (proc_clear_state root epoch fs key).1 key = false) := by
  constructor
  · intro hn
    simp [proc_clear_state, proc_has_state, proc_read_state, readToString, hn]
  · intro hok
    rcases hfp : fs.files (state_file_path root epoch key) with _ | v
    · simp [proc_clear_state, proc_has_state, proc_read_state, readToString, hfp]
    · cases hrf : fs.removeFault (state_file_path root epoch key)
      · simp [proc_clear_state, proc_has_state, proc_read_state, readToString, hfp,
          removeFile, hrf]
      · simp [proc_clear_state, proc_has_state, proc_read_state, readToString, hfp,
          removeFile, hrf] at hok

/-- Witness for C3 at a concrete input: clearing a key that was never written
succeeds and leaves the filesystem unchanged. -/
theorem clear_state_contract_witness :
    emptyFS.files (state_file_path [] 0 ['k']) = none ∧
    proc_clear_state [] 0 emptyFS ['k'] = (emptyFS, .ok ()) :=
  ⟨rfl, (clear_state_contract [] 0 emptyFS ['k']).1 rfl⟩

/-- C3 counterexample: when the state file exists but `fs::remove_file` fails,
`proc_clear_state` surfaces the I/O error to its caller instead of swallowing
it. -/
theorem clear_state_error_counterexample :
    (proc_clear_state [] 0
        (removeBrokenFS (state_file_path [] 0 ['k']) ['v']) ['k']).2
      = .error .ioFault := rfl

/-- C4 (amended): for a key with no prior state and any sequence of items
none of which contains the literal two-character sequence backslash-`n`
(items may contain embedded newline characters), appending them in order and
reading via `proc_read_state_vec` returns exactly that sequence. -/
theorem append_list_roundtrip (root : Str) (epoch : Nat) (fs : FS) (key : Str)
    (items : List Str)
    (hfresh : fs.files (state_file_path root epoch key) = none)
    (hfault : fs.appendFault (state_file_path root epoch key) = false)
    (hitems : ∀ s ∈ items, hasEscSeq s = false) :
    proc_read_state_vec root epoch (appendStates root epoch fs key items) key = items := by
  cases items with
  | nil =>
    simp [appendStates, proc_read_state_vec, readToString, hfresh]
  | cons i is =>
    have hfile := appendStates_files_none root epoch key i is fs hfault hfresh
    simp only [proc_read_state_vec, readToString, hfile]
    rw [decodeList_encodeItems (i :: is) (List.cons_ne_nil i is)]
    have hmap : (i :: is).map (fun s => unescapeNl (escapeNl s)) = (i :: is).map id :=
      List.map_congr_left fun s hs => unescapeNl_escapeNl s (hitems s hs)
    rw [hmap, List.map_id]

/-- Witness for C4 at a concrete input: a two-item list whose first item holds
an embedded newline is recovered unchanged. -/
theorem append_list_roundtrip_witness :
    emptyFS.files (state_file_path [] 0 ['k']) = none ∧
    emptyFS.appendFault (state_file_path [] 0 ['k']) = false ∧
    hasEscSeq ['h', '\n', 'w'] = false ∧
    hasEscSeq ['x'] = false ∧
    proc_read_state_vec [] 0
        (appendStates [] 0 emptyFS ['k'] [['h', '\n', 'w'], ['x']]) ['k']
      = [['h', '\n', 'w'], ['x']] :=
  ⟨rfl, rfl, by decide, by decide,
    append_list_roundtrip [] 0 emptyFS ['k'] [['h', '\n', 'w'], ['x']] rfl rfl (by decide)⟩

/-- C4 counterexample: a sequence whose second item is the literal
backslash-`n` pair is not returned exactly — that item comes back as a
newline. -/
theorem append_list_counterexample :
    proc_read_state_vec [] 0
        (appendStates [] 0 emptyFS ['k'] [['a'], ['\\', 'n']]) ['k'] = [['a'], ['\n']] ∧
    [['a'], ['\n']] ≠ [(['a'] : Str), ['\\', 'n']] := ⟨rfl, by decide⟩

/-- C5: contrary to the claim (and to the crate documentation of
`proc_read_state_vec`), after writing the scalar value consisting of a single
newline, `proc_read_state_vec` returns a one-element list holding the empty
string, not an empty list: stripping the trailing newline leaves the empty
string, and splitting the empty string yields one empty item. -/
theorem newline_scalar_not_empty_vec :
    proc_read_state_vec [] 0 (proc_write_state [] 0 emptyFS ['k'] ['\n']).1 ['k'] = [[]] ∧
    ([[]] : List Str) ≠ [] := ⟨rfl, by decide⟩

/-- C6: on a key with no stored value (and a writable store), the first
`proc_init_state` writes and returns its default, a second `proc_init_state`
returns the first default and ignores its own; on a key that already holds
`v0`, both calls return `v0` and leave the store untouched. -/
theorem init_state_first_wins (root : Str) (epoch : Nat) (fs : FS) (key d1 d2 : Str) :
    (fs.files (state_file_path root epoch key) = none →
      fs.createFault (state_file_path root epoch key) = false →
      (proc_init_state root epoch fs key d1).2 = .ok d1 ∧
      (proc_init_state root epoch fs key d1).1.files (state_file_path root epoch key)
        = some d1 ∧
      proc_init_state root epoch (proc_init_state root epoch fs key d1).1 key d2
        = ((proc_init_state root epoch fs key d1).1, .ok d1)) ∧
    (∀ v0, fs.files (state_file_path root epoch key) = some v0 →
      proc_init_state root epoch fs key d1 = (fs, .ok v0) ∧
      proc_init_state root epoch fs key d2 = (fs, .ok v0)) := by
  constructor
  · intro hn hcf
    have hw : proc_init_state root epoch fs key d1
        = ({ fs with files := fun q =>
              if q = state_file_path root epoch key then some d1 else fs.files q },
            .ok d1) := by
      simp [proc_init_state, proc_read_state, readToString, hn, proc_write_state, hcf]
    refine ⟨by rw [hw], by rw [hw]; simp, ?_⟩
    rw [hw]
    simp [proc_init_state, proc_read_state, readToString]
  · intro v0 hv
    constructor <;> simp [proc_init_state, proc_read_state, readToString, hv]

/-- Witness for C6 at a concrete input: a fresh key initialised with `"a"`
then `"b"` returns `"a"` both times. -/
theorem init_state_first_wins_witness :
    emptyFS.files (state_file_path [] 0 ['k']) = none ∧
    emptyFS.createFault (state_file_path [] 0 ['k']) = false ∧
    (proc_init_state [] 0 emptyFS ['k'] ['a']).2 = .ok ['a'] ∧
    proc_init_state [] 0 (proc_init_state [] 0 emptyFS ['k'] ['a']).1 ['k'] ['b']
      = ((proc_init_state [] 0 emptyFS ['k'] ['a']).1, .ok ['a']) :=
  ⟨rfl, rfl, ((init_state_first_wins [] 0 emptyFS ['k'] ['a'] ['b']).1 rfl rfl).1,
    ((init_state_first_wins [] 0 emptyFS ['k'] ['a'] ['b']).1 rfl rfl).2.2⟩

/-- C7: the state-file location is a pure function of (root, key, epoch);
equal epochs give equal locations for the same key, and distinct epoch values
always give distinct locations for the same key. -/
theorem state_file_path_epoch_sound (root key : Str) (e1 e2 : Nat) :
    (e1 = e2 → state_file_path root e1 key = state_file_path root e2 key) ∧
    (e1 ≠ e2 → state_file_path root e1 key ≠ state_file_path root e2 key) := by
  constructor
  · intro h
    rw [h]
  · intro hne heq
    apply hne
    simp only [state_file_path] at heq
    have h1 : '_' :: decimalStr e1 = '_' :: decimalStr e2 := List.append_cancel_left heq
    injection h1 with _ h2
    exact decimalStr_injective e1 e2 h2

/-- Witness for C7 at a concrete input: epochs 0 and 1 resolve the same key to
distinct locations. -/
theorem state_file_path_epoch_sound_witness :
    (0 : Nat) ≠ 1 ∧ state_file_path [] 0 ['k'] ≠ state_file_path [] 1 ['k'] :=
  ⟨by decide, (state_file_path_epoch_sound [] ['k'] 0 1).2 (by decide)⟩

/-- C8: `proc_read_state_vec` is infallible — whenever the underlying read
errors (in particular with NotFound for a never-written key), it returns the
empty list. -/
theorem read_state_vec_absorbs_errors (root : Str) (epoch : Nat) (fs : FS) (key : Str)
    (err : IoErr) (h : proc_read_state root epoch fs key = .error err) :
    proc_read_state_vec root epoch fs key = [] := by
  rcases hfp : fs.files (state_file_path root epoch key) with _ | v
  · simp [proc_read_state_vec, readToString, hfp]
  · simp [proc_read_state, readToString, hfp] at h

/-- Witness for C8 at a concrete input: a never-written key reads as the
empty list. -/
theorem read_state_vec_absorbs_errors_witness :
    proc_read_state [] 0 emptyFS ['k'] = .error .notFound ∧
    proc_read_state_vec [] 0 emptyFS ['k'] = [] :=
  ⟨rfl, read_state_vec_absorbs_errors [] 0 emptyFS ['k'] .notFound rfl⟩

/-- C9: `proc_has_state` is true exactly when `proc_read_state` succeeds, and
every read failure is absorbed into the result `false`. -/
theorem has_state_iff_read_ok (root : Str) (epoch : Nat) (fs : FS) (key : Str) :
    (proc_has_state root epoch fs key = true ↔
      ∃ v, proc_read_state root epoch fs key = .ok v) ∧
    (∀ err, proc_read_state root epoch fs key = .error err →
      proc_has_state root epoch fs key = false) := by
  rcases hfp : fs.files (state_file_path root epoch key) with _ | v
  · constructor
    · simp [proc_has_state, proc_read_state, readToString, hfp]
    · intro err _
      simp [proc_has_state, proc_read_state, readToString, hfp]
  · constructor
    · simp [proc_has_state, proc_read_state, readToString, hfp]
    · intro err herr
      simp [proc_read_state, readToString, hfp] at herr

/-- Witness for C9 at a concrete input: an absent key reads as an error and
`proc_has_state` is false for it. -/
theorem has_state_iff_read_ok_witness :
    proc_read_state [] 0 emptyFS ['h'] = .error .notFound ∧
    proc_has_state [] 0 emptyFS ['h'] = false :=
  ⟨rfl, (has_state_iff_read_ok [] 0 emptyFS ['h']).2 .notFound rfl⟩

/-- C10: within one epoch, distinct keys resolve to distinct locations, and
each of `proc_write_state`, `proc_append_state`, `proc_init_state` and
`proc_clear_state` on one key leaves the stored value (or absence) at every
other key unchanged. -/
theorem cross_key_frame (root : Str) (epoch : Nat) (k k' : Str) (h : k ≠ k') :
    state_file_path root epoch k ≠ state_file_path root epoch k' ∧
    (∀ (fs : FS) (v : Str),
      ((proc_write_state root epoch fs k v).1).files (state_file_path root epoch k')
        = fs.files (state_file_path root epoch k')) ∧
    (∀ (fs : FS) (v : Str),
      ((proc_append_state root epoch fs k v).1).files (state_file_path root epoch k')
        = fs.files (state_file_path root epoch k')) ∧
    (∀ (fs : FS) (d : Str),
      ((proc_init_state root epoch fs k d).1).files (state_file_path root epoch k')
        = fs.files (state_file_path root epoch k')) ∧
    (∀ fs : FS,
      ((proc_clear_state root epoch fs k).1).files (state_file_path root epoch k')
        = fs.files (state_file_path root epoch k')) := by
  have hp : state_file_path root epoch k' ≠ state_file_path root epoch k :=
    Ne.symm (state_file_path_key_inj root epoch k k' h)
  refine ⟨state_file_path_key_inj root epoch k k' h, ?_, ?_, ?_, ?_⟩
  · intro fs v
    cases hc : fs.createFault (state_file_path root epoch k)
    · simp [proc_write_state, hc, hp]
    · simp [proc_write_state, hc]
  · intro fs v
    cases ha : fs.appendFault (state_file_path root epoch k)
    · simp [proc_append_state, ha, hp]
    · simp [proc_append_state, ha]
  · intro fs d
    rcases hr : fs.files (state_file_path root epoch k) with _ | v0
    · cases hc : fs.createFault (state_file_path root epoch k)
      · simp [proc_init_state, proc_read_state, readToString, hr, proc_write_state, hc, hp]
      · simp [proc_init_state, proc_read_state, readToString, hr, proc_write_state, hc]
    · simp [proc_init_state, proc_read_state, readToString, hr]
  · intro fs
    rcases hr : fs.files (state_file_path root epoch k) with _ | v0
    · simp [proc_clear_state, proc_has_state, proc_read_state, readToString, hr]
    · cases hrf : fs.removeFault (state_file_path root epoch k)
      · simp [proc_clear_state, proc_has_state, proc_read_state, readToString, hr,
          removeFile, hrf, hp]
      · simp [proc_clear_state, proc_has_state, proc_read_state, readToString, hr,
          removeFile, hrf]

/-- Witness for C10 at a concrete input: keys `"a"` and `"b"` resolve to
distinct locations in the same epoch. -/
theorem cross_key_frame_witness :
    (['a'] : Str) ≠ ['b'] ∧ state_file_path [] 0 ['a'] ≠ state_file_path [] 0 ['b'] :=
  ⟨by decide, (cross_key_frame [] 0 ['a'] ['b'] (by decide)).1⟩
